import Mathlib

/-!
Shallow embedding of the local folder store and synchronization engine of
go-imap-backup (meta.go, cmd.go, and the local folder file `LocalFolder`
with its `Append` / `ReadAllIndex` / `IdxScan` / `MboxScan` operations),
together with theorems settling the specification claims.

Machine integers of the Go source (`uint32`, `uint64`) are modelled as `Nat`,
with an explicit `% 2 ^ 64` where the source performs `uint64` arithmetic that
could wrap, and with explicit range side conditions where a Go value is of a
bounded type.  Bytes are modelled as `Nat`.  File contents are modelled
explicitly: the archive (`.mbox`) file as a list of bytes, the index (`.idx`)
file as its list of newline-terminated lines (every index write is exactly one
line ending in a newline, so the line model is exact).
-/

namespace GoImapBackup

/-- Metadata for an email message (struct `MessageMeta` of meta.go).
`SeqNum`, `UidValidity`, `Uid`, `Size` are `uint32` in the source and
`Offset` is `uint64`; all are modelled as `Nat`. -/
structure MessageMeta where
  SeqNum : Nat
  UidValidity : Nat
  Uid : Nat
  Size : Nat
  Offset : Nat
deriving Repr, DecidableEq

/-- Metadata for a folder (struct `ImapFolderMeta` of meta.go).
`UidValidity` is `uint32`, `Size` is `uint64`. -/
structure ImapFolderMeta where
  Name : String
  UidValidity : Nat
  Messages : List MessageMeta
  Size : Nat
deriving Repr, DecidableEq

/-- `MessageMeta.GetUuid` of meta.go:
`(uint64(md.UidValidity) << 32) | uint64(md.Uid)`.
Widening a `uint32` to `uint64` is exact, and the shifted value together with
a `uint32` low word cannot exceed `2 ^ 64`, so no wrap occurs for field values
in `uint32` range. -/
def MessageMeta.GetUuid (md : MessageMeta) : Nat :=
  (md.UidValidity <<< 32) ||| md.Uid

/-- `ImapFolderMeta.GetMap` of meta.go builds a Go hash map from uuid to
message by inserting each message in list order.  The map is modelled as an
association list with the most recent insertion first, so that
`List.lookup` returns the last write for a key, exactly like the Go map. -/
def ImapFolderMeta.GetMap (f : ImapFolderMeta) : List (Nat × MessageMeta) :=
  f.Messages.foldl (fun res m => (m.GetUuid, m) :: res) []

/-- `ImapFolderMeta.FilterOut` of meta.go: walks `f.Messages` in order,
keeps each message whose uuid is not a key of `out.GetMap`, and accumulates
`size += uint64(md.Size)` (a `uint64` accumulation, hence the `% 2 ^ 64`). -/
def ImapFolderMeta.FilterOut (f : ImapFolderMeta) (out : ImapFolderMeta) :
    List MessageMeta × Nat :=
  let outMap := out.GetMap
  f.Messages.foldl
    (fun acc md =>
      match outMap.lookup md.GetUuid with
      | some _ => acc
      | none => (acc.1 ++ [md], (acc.2 + md.Size) % 2 ^ 64))
    ([], 0)

/-- The boolean "uuid of `md` occurs among the uuids of `out.Messages`"
test that `FilterOut` effectively performs via its map lookup. -/
def uuidMem (out : ImapFolderMeta) (md : MessageMeta) : Bool :=
  out.Messages.any (fun m => m.GetUuid == md.GetUuid)

/-- The messages of `f` whose uuid does not occur in `out`, in order. -/
def keptMessages (f out : ImapFolderMeta) : List MessageMeta :=
  f.Messages.filter (fun md => !(uuidMem out md))

/-- Sum of the `Size` fields of a message list (unbounded). -/
def sizesSum (l : List MessageMeta) : Nat :=
  (l.map (fun m => m.Size)).sum

/-! Lemmas about `GetMap` and `FilterOut`. -/

theorem getMap_foldl_lookup_isSome (l : List MessageMeta)
    (acc : List (Nat × MessageMeta)) (k : Nat) :
    ((l.foldl (fun res m => (m.GetUuid, m) :: res) acc).lookup k).isSome =
      (l.any (fun m => m.GetUuid == k) || (acc.lookup k).isSome) := by
  induction l generalizing acc with
  | nil => simp
  | cons m rest ih =>
      simp only [List.foldl_cons, List.any_cons, ih, List.lookup]
      by_cases h : k = m.GetUuid
      · simp [h, beq_iff_eq]
      · have h1 : (k == m.GetUuid) = false := by simp [h]
        have h2 : (m.GetUuid == k) = false := by
          simp [beq_iff_eq]; exact fun hc => h hc.symm
        simp [h1, h2, Bool.or_assoc, Bool.or_comm, Bool.or_left_comm]

theorem getMap_lookup_isSome (out : ImapFolderMeta) (k : Nat) :
    ((out.GetMap.lookup k)).isSome = out.Messages.any (fun m => m.GetUuid == k) := by
  have := getMap_foldl_lookup_isSome out.Messages [] k
  simpa [ImapFolderMeta.GetMap] using this

theorem filterOut_foldl_spec (outMap : List (Nat × MessageMeta))
    (l : List MessageMeta) (res : List MessageMeta) (size : Nat)
    (hsize : size < 2 ^ 64) :
    l.foldl
      (fun acc md =>
        match outMap.lookup md.GetUuid with
        | some _ => acc
        | none => (acc.1 ++ [md], (acc.2 + md.Size) % 2 ^ 64))
      (res, size) =
      (res ++ l.filter (fun md => !(outMap.lookup md.GetUuid).isSome),
       (size + sizesSum (l.filter (fun md => !(outMap.lookup md.GetUuid).isSome)))
         % 2 ^ 64) := by
  induction l generalizing res size with
  | nil =>
      simp only [List.foldl_nil, List.filter_nil, sizesSum, List.map_nil, List.sum_nil,
        Nat.add_zero, List.append_nil, Nat.mod_eq_of_lt hsize]
  | cons md rest ih =>
      simp only [List.foldl_cons]
      cases h : outMap.lookup md.GetUuid with
      | some m =>
          have hf : (!(outMap.lookup md.GetUuid).isSome) = false := by simp [h]
          simp only [List.filter_cons, hf]
          rw [ih res size hsize]
          simp
      | none =>
          have hf : (!(outMap.lookup md.GetUuid).isSome) = true := by simp [h]
          simp only [List.filter_cons, hf]
          rw [ih (res ++ [md]) ((size + md.Size) % 2 ^ 64) (Nat.mod_lt _ (by norm_num))]
          simp [sizesSum, List.append_assoc, Nat.mod_add_mod, Nat.add_assoc]

/-- Characterization of `FilterOut`: it returns the kept messages in the
original order, and their size sum taken modulo `2 ^ 64`. -/
theorem filterOut_eq (f out : ImapFolderMeta) :
    f.FilterOut out = (keptMessages f out, sizesSum (keptMessages f out) % 2 ^ 64) := by
  have hpred : ∀ md : MessageMeta,
      (!(out.GetMap.lookup md.GetUuid).isSome) = !(uuidMem out md) := by
    intro md
    rw [getMap_lookup_isSome]
    rfl
  unfold ImapFolderMeta.FilterOut
  rw [filterOut_foldl_spec _ _ _ _ (by norm_num)]
  simp only [keptMessages]
  have hfilter :
      f.Messages.filter (fun md => !(out.GetMap.lookup md.GetUuid).isSome) =
        f.Messages.filter (fun md => !(uuidMem out md)) := by
    apply List.filter_congr
    intro md _
    exact hpred md
  rw [hfilter]
  simp

theorem keptMessages_mem (f out : ImapFolderMeta) (md : MessageMeta) :
    md ∈ keptMessages f out ↔
      md ∈ f.Messages ∧ ∀ m ∈ out.Messages, m.GetUuid ≠ md.GetUuid := by
  simp only [keptMessages, List.mem_filter, Bool.not_eq_true', uuidMem]
  constructor
  · rintro ⟨hmem, hany⟩
    refine ⟨hmem, fun m hm heq => ?_⟩
    have : out.Messages.any (fun m => m.GetUuid == md.GetUuid) = true :=
      List.any_eq_true.mpr ⟨m, hm, by simp [heq]⟩
    rw [this] at hany
    exact Bool.noConfusion hany
  · rintro ⟨hmem, hall⟩
    refine ⟨hmem, ?_⟩
    rw [Bool.eq_false_iff]
    intro hany
    obtain ⟨m, hm, heq⟩ := List.any_eq_true.mp hany
    exact hall m hm (by simpa using heq)

/-- C1: `FilterOut(source, exclude)` returns exactly the records of `source`
whose composite key does not occur among the composite keys of `exclude`'s
records, in `source`'s original order (the result is a sublist of
`source.Messages`), and its total size is the sum of the `Size` fields of the
retained records (the `uint64` accumulator does not wrap below `2 ^ 64`). -/
theorem C1_filterOut_exact (source exclude : ImapFolderMeta)
    (hsum : sizesSum (keptMessages source exclude) < 2 ^ 64) :
    (source.FilterOut exclude).1 = keptMessages source exclude ∧
    (∀ md : MessageMeta, md ∈ (source.FilterOut exclude).1 ↔
      md ∈ source.Messages ∧ ∀ m ∈ exclude.Messages, m.GetUuid ≠ md.GetUuid) ∧
    List.Sublist (source.FilterOut exclude).1 source.Messages ∧
    (source.FilterOut exclude).2 = sizesSum ((source.FilterOut exclude).1) := by
  rw [filterOut_eq]
  refine ⟨rfl, ?_, ?_, ?_⟩
  · intro md
    exact keptMessages_mem source exclude md
  · exact List.filter_sublist _
  · exact Nat.mod_eq_of_lt hsum

theorem C1_filterOut_exact_witness :
    sizesSum (keptMessages
        ⟨"A", 7, [⟨1, 7, 1, 100, 0⟩, ⟨2, 7, 2, 200, 0⟩], 300⟩
        ⟨"B", 7, [⟨9, 7, 2, 555, 3⟩], 555⟩) < 2 ^ 64 ∧
    ((⟨"A", 7, [⟨1, 7, 1, 100, 0⟩, ⟨2, 7, 2, 200, 0⟩], 300⟩ : ImapFolderMeta).FilterOut
        ⟨"B", 7, [⟨9, 7, 2, 555, 3⟩], 555⟩).1 =
      keptMessages ⟨"A", 7, [⟨1, 7, 1, 100, 0⟩, ⟨2, 7, 2, 200, 0⟩], 300⟩
        ⟨"B", 7, [⟨9, 7, 2, 555, 3⟩], 555⟩ :=
  ⟨by decide,
   (C1_filterOut_exact
     ⟨"A", 7, [⟨1, 7, 1, 100, 0⟩, ⟨2, 7, 2, 200, 0⟩], 300⟩
     ⟨"B", 7, [⟨9, 7, 2, 555, 3⟩], 555⟩ (by decide)).1⟩

/-- C6: the composite key `GetUuid` is the validity stamp shifted left by 32
bits or-ed with the id, which for a `uint32` id equals
`validity * 2 ^ 32 + id`; and two records with equal (validity, id) are
identified by the diff engine: a match in `exclude` removes the `source`
record even when sequence number, size and offset differ. -/
theorem C6_getUuid_key (md : MessageMeta) :
    md.GetUuid = (md.UidValidity <<< 32) ||| md.Uid ∧
    (md.Uid < 2 ^ 32 → md.GetUuid = md.UidValidity * 2 ^ 32 + md.Uid) ∧
    (∀ (source exclude : ImapFolderMeta) (m : MessageMeta),
      m ∈ exclude.Messages → m.UidValidity = md.UidValidity → m.Uid = md.Uid →
      md ∉ (source.FilterOut exclude).1) := by
  refine ⟨rfl, ?_, ?_⟩
  · intro hu
    show (md.UidValidity <<< 32) ||| md.Uid = _
    rw [Nat.shiftLeft_eq, Nat.mul_comm md.UidValidity (2 ^ 32),
      ← Nat.mul_add_lt_is_or hu md.UidValidity, Nat.mul_comm (2 ^ 32) md.UidValidity]
  · intro source exclude m hm hv hu hmem
    rw [filterOut_eq] at hmem
    obtain ⟨-, hall⟩ := (keptMessages_mem source exclude md).mp hmem
    exact hall m hm (by simp [MessageMeta.GetUuid, hv, hu])

theorem C6_getUuid_key_witness :
    (⟨0, 7, 5, 100, 0⟩ : MessageMeta).GetUuid = 7 * 2 ^ 32 + 5 ∧
    (⟨0, 7, 5, 100, 0⟩ : MessageMeta) ∉
      ((⟨"A", 7, [⟨0, 7, 5, 100, 0⟩], 100⟩ : ImapFolderMeta).FilterOut
        ⟨"B", 7, [⟨3, 7, 5, 42, 77⟩], 42⟩).1 :=
  ⟨(C6_getUuid_key ⟨0, 7, 5, 100, 0⟩).2.1 (by decide),
   (C6_getUuid_key ⟨0, 7, 5, 100, 0⟩).2.2
     ⟨"A", 7, [⟨0, 7, 5, 100, 0⟩], 100⟩
     ⟨"B", 7, [⟨3, 7, 5, 42, 77⟩], 42⟩
     ⟨3, 7, 5, 42, 77⟩ (by decide) rfl rfl⟩

/-- C7: filtering a snapshot against itself yields the empty record list and
total size 0 (stated, as the claim does, for non-empty message lists). -/
theorem C7_filterOut_self (f : ImapFolderMeta) (_h : f.Messages ≠ []) :
    f.FilterOut f = ([], 0) := by
  rw [filterOut_eq]
  have hkept : keptMessages f f = [] := by
    unfold keptMessages
    rw [List.filter_eq_nil_iff]
    intro md hmd
    simp only [Bool.not_eq_true', Bool.not_eq_false]
    exact List.any_eq_true.mpr ⟨md, hmd, by simp⟩
  rw [hkept]
  rfl

theorem C7_filterOut_self_witness :
    ((⟨"INBOX", 7, [⟨1, 7, 1, 100, 0⟩], 100⟩ : ImapFolderMeta).Messages ≠ []) ∧
    (⟨"INBOX", 7, [⟨1, 7, 1, 100, 0⟩], 100⟩ : ImapFolderMeta).FilterOut
      ⟨"INBOX", 7, [⟨1, 7, 1, 100, 0⟩], 100⟩ = ([], 0) :=
  ⟨by decide, C7_filterOut_self ⟨"INBOX", 7, [⟨1, 7, 1, 100, 0⟩], 100⟩ (by decide)⟩

/-- C8: filtering against an exclude snapshot with no messages returns the
source message list unchanged with its exact size sum (no wrap below
`2 ^ 64`), and filtering an empty source returns the empty list and size 0. -/
theorem C8_filterOut_empty (source exclude : ImapFolderMeta) :
    (exclude.Messages = [] → sizesSum source.Messages < 2 ^ 64 →
      source.FilterOut exclude = (source.Messages, sizesSum source.Messages)) ∧
    (source.Messages = [] → source.FilterOut exclude = ([], 0)) := by
  constructor
  · intro hexc hsum
    rw [filterOut_eq]
    have hkept : keptMessages source exclude = source.Messages := by
      unfold keptMessages
      rw [List.filter_eq_self]
      intro md _
      simp [uuidMem, hexc]
    rw [hkept, Nat.mod_eq_of_lt hsum]
  · intro hsrc
    rw [filterOut_eq]
    have hkept : keptMessages source exclude = [] := by
      simp [keptMessages, hsrc]
    rw [hkept]
    rfl

theorem C8_filterOut_empty_witness :
    (⟨"A", 7, [⟨1, 7, 1, 100, 0⟩], 100⟩ : ImapFolderMeta).FilterOut
      ⟨"B", 0, [], 0⟩ = ([⟨1, 7, 1, 100, 0⟩], 100) ∧
    (⟨"C", 0, [], 0⟩ : ImapFolderMeta).FilterOut
      ⟨"D", 7, [⟨1, 7, 1, 100, 0⟩], 100⟩ = ([], 0) :=
  ⟨(C8_filterOut_empty ⟨"A", 7, [⟨1, 7, 1, 100, 0⟩], 100⟩ ⟨"B", 0, [], 0⟩).1
      rfl (by decide),
   (C8_filterOut_empty ⟨"C", 0, [], 0⟩ ⟨"D", 7, [⟨1, 7, 1, 100, 0⟩], 100⟩).2 rfl⟩

/-!
Decimal rendering and scanning, modelling Go's `fmt.Fprintf` with verb `%d`
on unsigned integers and `fmt.Sscanf` with format `"%d\t%d\t%d\t%d"`.
-/

/-- The decimal digits of `n`, least significant first (empty for 0).
The first argument is fuel, instantiated with `n` itself so the recursion is
structural and kernel-reducible. -/
def toDigitsRevAux : Nat → Nat → List Nat
  | 0, _ => []
  | fuel + 1, n => if n = 0 then [] else n % 10 :: toDigitsRevAux fuel (n / 10)

def toDigitsRev (n : Nat) : List Nat :=
  toDigitsRevAux n n

/-- Value of a little-endian digit list. -/
def ofDigitsLE (ds : List Nat) : Nat :=
  ds.foldr (fun d acc => d + 10 * acc) 0

/-- The character for decimal digit `d`. -/
def digitChar (d : Nat) : Char :=
  Char.ofNat (48 + d)

/-- Decimal rendering of `n` as Go's `%d` produces it (most significant digit
first, `"0"` for zero). -/
def natDecChars (n : Nat) : List Char :=
  if n = 0 then ['0'] else (toDigitsRev n).reverse.map digitChar

/-- ASCII decimal digit test used by the `%d` scanning model. -/
def isDigitCh (c : Char) : Bool :=
  48 ≤ c.toNat && c.toNat ≤ 57

/-- Whitespace as skipped by Go scanning between verbs (space and tab cover
every character the index writer can emit between fields). -/
def isSpaceCh (c : Char) : Bool :=
  c == ' ' || c == '\t'

/-- Big-endian value of a digit character run. -/
def digitsVal (ds : List Char) : Nat :=
  ds.foldl (fun acc c => acc * 10 + (c.toNat - 48)) 0

/-- One `%d` conversion: consume a maximal non-empty run of decimal digits
and return its value with the rest of the input; fail on no digit. -/
def scanNat (cs : List Char) : Option (Nat × List Char) :=
  if (cs.takeWhile isDigitCh).isEmpty then none
  else some (digitsVal (cs.takeWhile isDigitCh), cs.dropWhile isDigitCh)

/-- `fmt.Sscanf(line, "%d\t%d\t%d\t%d", &mm.UidValidity, &mm.Uid, &mm.Size,
&mm.Offset)` of the index line parser: four unsigned decimal fields separated
by whitespace, the first three scanned into `uint32` and the last into
`uint64` (out-of-range values are a scan error).  The zero value of the
target `MessageMeta` leaves `SeqNum = 0`.  Sscanf's textual error message is
not modelled, only its success or failure. -/
def sscanf4 (line : String) : Option MessageMeta := do
  let cs := line.data.dropWhile isSpaceCh
  let (v, cs) ← scanNat cs
  if v ≥ 2 ^ 32 then none else
  let (u, cs) ← scanNat (cs.dropWhile isSpaceCh)
  if u ≥ 2 ^ 32 then none else
  let (s, cs) ← scanNat (cs.dropWhile isSpaceCh)
  if s ≥ 2 ^ 32 then none else
  let (o, _) ← scanNat (cs.dropWhile isSpaceCh)
  if o ≥ 2 ^ 64 then none else
  some ⟨0, v, u, s, o⟩

/-- The index line `fmt.Fprintf(lf.IdxWriter, "%d\t%d\t%d\t%d\n", uidValidity,
uid, len(bs), pos)` writes, without its terminating newline (the line model of
the index file stores lines without terminators). -/
def fmtIdxLine (v u s o : Nat) : String :=
  String.mk (natDecChars v ++ '\t' :: (natDecChars u ++ '\t' ::
    (natDecChars s ++ '\t' :: natDecChars o)))

/-! Round-trip lemmas for the decimal machinery. -/

theorem ofDigitsLE_toDigitsRevAux (fuel : Nat) :
    ∀ n, n ≤ fuel → ofDigitsLE (toDigitsRevAux fuel n) = n := by
  induction fuel with
  | zero =>
      intro n hn
      interval_cases n
      rfl
  | succ fuel ih =>
      intro n hn
      by_cases h0 : n = 0
      · simp [toDigitsRevAux, h0, ofDigitsLE]
      · have hdiv : n / 10 ≤ fuel := by
          have := Nat.div_lt_self (Nat.pos_of_ne_zero h0) (by norm_num : (1:Nat) < 10)
          omega
        simp only [toDigitsRevAux, h0, if_false, ofDigitsLE, List.foldr_cons]
        have := ih (n / 10) hdiv
        simp only [ofDigitsLE] at this
        rw [this]
        omega

theorem ofDigitsLE_toDigitsRev (n : Nat) : ofDigitsLE (toDigitsRev n) = n :=
  ofDigitsLE_toDigitsRevAux n n (Nat.le_refl n)

theorem toDigitsRevAux_lt_ten (fuel : Nat) :
    ∀ n, ∀ d ∈ toDigitsRevAux fuel n, d < 10 := by
  induction fuel with
  | zero => intro n d hd; simp [toDigitsRevAux] at hd
  | succ fuel ih =>
      intro n d hd
      by_cases h0 : n = 0
      · simp [toDigitsRevAux, h0] at hd
      · simp only [toDigitsRevAux, h0, if_false, List.mem_cons] at hd
        rcases hd with h | h
        · omega
        · exact ih _ d h

theorem digitChar_toNat {d : Nat} (hd : d < 10) : (digitChar d).toNat = 48 + d := by
  interval_cases d <;> decide

theorem isDigitCh_digitChar {d : Nat} (hd : d < 10) : isDigitCh (digitChar d) = true := by
  interval_cases d <;> decide

theorem natDecChars_all_digits (n : Nat) :
    ∀ c ∈ natDecChars n, isDigitCh c = true := by
  intro c hc
  unfold natDecChars at hc
  by_cases h0 : n = 0
  · simp [h0] at hc
    subst hc
    decide
  · simp only [h0, if_false, List.mem_map, List.mem_reverse] at hc
    obtain ⟨d, hd, rfl⟩ := hc
    exact isDigitCh_digitChar (toDigitsRevAux_lt_ten n n d hd)

theorem takeWhile_append_all {p : Char → Bool} :
    ∀ (l r : List Char), (∀ c ∈ l, p c = true) →
      (l ++ r).takeWhile p = l ++ r.takeWhile p := by
  intro l r hl
  induction l with
  | nil => simp
  | cons c cs ih =>
      have hc : p c = true := hl c (List.mem_cons_self c cs)
      simp only [List.cons_append, List.takeWhile_cons, hc, if_true]
      rw [ih (fun x hx => hl x (List.mem_cons_of_mem c hx))]

theorem dropWhile_append_all {p : Char → Bool} :
    ∀ (l r : List Char), (∀ c ∈ l, p c = true) →
      (l ++ r).dropWhile p = r.dropWhile p := by
  intro l r hl
  induction l with
  | nil => simp
  | cons c cs ih =>
      have hc : p c = true := hl c (List.mem_cons_self c cs)
      simp only [List.cons_append, List.dropWhile_cons, hc, if_true]
      exact ih (fun x hx => hl x (List.mem_cons_of_mem c hx))

theorem takeWhile_not_head {p : Char → Bool} :
    ∀ (r : List Char), (∀ c, r.head? = some c → p c = false) →
      r.takeWhile p = [] := by
  intro r hr
  cases r with
  | nil => rfl
  | cons c cs =>
      have := hr c rfl
      simp [List.takeWhile_cons, this]

theorem dropWhile_not_head {p : Char → Bool} :
    ∀ (r : List Char), (∀ c, r.head? = some c → p c = false) →
      r.dropWhile p = r := by
  intro r hr
  cases r with
  | nil => rfl
  | cons c cs =>
      have := hr c rfl
      simp [List.dropWhile_cons, this]

theorem foldr_digitChar_val :
    ∀ ds : List Nat, (∀ d ∈ ds, d < 10) →
      List.foldr (fun d acc => acc * 10 + ((digitChar d).toNat - 48)) 0 ds =
        ofDigitsLE ds := by
  intro ds hds
  induction ds with
  | nil => rfl
  | cons d rest ih =>
      have hd : d < 10 := hds d (List.mem_cons_self d rest)
      simp only [List.foldr_cons, ofDigitsLE]
      rw [ih (fun x hx => hds x (List.mem_cons_of_mem d hx)), digitChar_toNat hd]
      simp only [ofDigitsLE]
      omega

theorem natDecChars_ne_nil (n : Nat) : natDecChars n ≠ [] := by
  unfold natDecChars
  by_cases h0 : n = 0
  · simp [h0]
  · simp only [h0, if_false, ne_eq, List.map_eq_nil_iff, List.reverse_eq_nil_iff]
    intro hnil
    have hval := ofDigitsLE_toDigitsRev n
    rw [toDigitsRev] at hval
    rw [toDigitsRev] at hnil
    rw [hnil] at hval
    simp [ofDigitsLE] at hval
    exact h0 hval.symm

theorem digitsVal_natDecChars (n : Nat) : digitsVal (natDecChars n) = n := by
  by_cases h0 : n = 0
  · rw [h0]
    decide
  · unfold digitsVal natDecChars
    simp only [h0, if_false]
    rw [List.foldl_map, List.foldl_reverse, toDigitsRev]
    rw [foldr_digitChar_val (toDigitsRevAux n n) (toDigitsRevAux_lt_ten n n)]
    exact ofDigitsLE_toDigitsRevAux n n (Nat.le_refl n)

/-- Scanning a rendered decimal field consumes exactly the field. -/
theorem scanNat_natDecChars (n : Nat) (rest : List Char)
    (hrest : ∀ c, rest.head? = some c → isDigitCh c = false) :
    scanNat (natDecChars n ++ rest) = some (n, rest) := by
  unfold scanNat
  rw [takeWhile_append_all _ _ (natDecChars_all_digits n),
    dropWhile_append_all _ _ (natDecChars_all_digits n),
    takeWhile_not_head rest hrest, dropWhile_not_head rest hrest,
    List.append_nil]
  have hne : (natDecChars n).isEmpty = false := by
    cases h : natDecChars n with
    | nil => exact absurd h (natDecChars_ne_nil n)
    | cons c cs => rfl
  rw [hne]
  simp only [Bool.false_eq_true, if_false, digitsVal_natDecChars]

theorem head_tab_not_digit :
    ∀ (l : List Char) (c : Char), (('\t' :: l).head? = some c) → isDigitCh c = false := by
  intro l c hc
  simp only [List.head?_cons, Option.some_inj] at hc
  subst hc
  decide

theorem head_not_space_of_digit (l : List Char)
    (hl : ∀ c, l.head? = some c → isDigitCh c = true) :
    ∀ c, l.head? = some c → isSpaceCh c = false := by
  intro c hc
  have hd := hl c hc
  simp only [isDigitCh, Bool.and_eq_true, decide_eq_true_eq] at hd
  simp only [isSpaceCh, Bool.or_eq_false_iff, beq_eq_false_iff_ne, ne_eq]
  constructor
  · rintro rfl
    exact absurd hd.1 (by decide)
  · rintro rfl
    exact absurd hd.1 (by decide)

theorem natDecChars_head_digit (n : Nat) :
    ∀ c, (natDecChars n).head? = some c → isDigitCh c = true := by
  intro c hc
  apply natDecChars_all_digits n
  cases h : natDecChars n with
  | nil => rw [h] at hc; simp at hc
  | cons x xs =>
      rw [h] at hc
      simp only [List.head?_cons, Option.some_inj] at hc
      subst hc
      simp [h]

theorem head_digit_append (n : Nat) (r : List Char) :
    ∀ c, ((natDecChars n ++ r).head? = some c) → isDigitCh c = true := by
  intro c hc
  cases h : natDecChars n with
  | nil => exact absurd h (natDecChars_ne_nil n)
  | cons x xs =>
      rw [h] at hc
      simp only [List.cons_append, List.head?_cons, Option.some_inj] at hc
      subst hc
      exact natDecChars_all_digits n x (by simp [h])

theorem dropWhile_space_tab (l : List Char)
    (hl : ∀ c, l.head? = some c → isDigitCh c = true) :
    List.dropWhile isSpaceCh ('\t' :: l) = l := by
  rw [List.dropWhile_cons]
  rw [if_pos (by decide : isSpaceCh '\t' = true)]
  exact dropWhile_not_head _ (head_not_space_of_digit _ hl)

/-- Round trip: the index line written for in-range fields scans back to
exactly the written record (with the zero `SeqNum` of the fresh scan target). -/
theorem sscanf4_fmtIdxLine (v u s o : Nat)
    (hv : v < 2 ^ 32) (hu : u < 2 ^ 32) (hs : s < 2 ^ 32) (ho : o < 2 ^ 64) :
    sscanf4 (fmtIdxLine v u s o) = some ⟨0, v, u, s, o⟩ := by
  unfold sscanf4 fmtIdxLine
  simp only [String.data]
  rw [dropWhile_not_head _ (head_not_space_of_digit _ (head_digit_append v _))]
  rw [scanNat_natDecChars v _ (head_tab_not_digit _)]
  simp only [Option.bind_eq_bind, Option.some_bind]
  rw [if_neg (by omega : ¬ v ≥ 2 ^ 32)]
  rw [dropWhile_space_tab _ (head_digit_append u _)]
  rw [scanNat_natDecChars u _ (head_tab_not_digit _)]
  simp only [Option.some_bind]
  rw [if_neg (by omega : ¬ u ≥ 2 ^ 32)]
  rw [dropWhile_space_tab _ (head_digit_append s _)]
  rw [scanNat_natDecChars s _ (head_tab_not_digit _)]
  simp only [Option.some_bind]
  rw [if_neg (by omega : ¬ s ≥ 2 ^ 32)]
  rw [dropWhile_space_tab _ (natDecChars_head_digit o)]
  rw [show natDecChars o = natDecChars o ++ [] from (List.append_nil _).symm]
  rw [scanNat_natDecChars o [] (by intro c hc; simp at hc)]
  simp only [Option.some_bind]
  rw [if_neg (by omega : ¬ o ≥ 2 ^ 64)]

/-!
The local folder store.  A folder is an archive file `<name>.mbox` (modelled
as a byte list) and an index file `<name>.idx` (modelled as its list of
lines).  Go `error` values that the claims inspect are modelled structurally.
-/

/-- Go `error` values produced by the local folder store.
`pathErr op path sysMsg` models `*fs.PathError` (rendered `"op path: sysMsg"`),
`scanParse file lineNo` models `fmt.Errorf("%s:%d: %s", lf.Idx.Name(),
lf.IdxLineNo, err.Error())` of `IdxScan` (Sscanf's detail text is not
modelled), `lineWrap file lineNo inner` models the second
`fmt.Errorf("%s:%d: %s", lf.Idx.Name(), lineNo, err.Error())` of
`ReadAllIndex`, and `ioMsg` models any other injected I/O error. -/
inductive GoError where
  | pathErr (op : String) (path : String) (sysMsg : String)
  | scanParse (file : String) (lineNo : Nat)
  | lineWrap (file : String) (lineNo : Nat) (inner : GoError)
  | ioMsg (msg : String)
deriving Repr, DecidableEq

/-- `err.Error()` for the modelled errors (detail texts of nested scan
errors are rendered from their components). -/
def GoError.message : GoError → String
  | .pathErr op path sysMsg => op ++ " " ++ path ++ ": " ++ sysMsg
  | .scanParse file lineNo => file ++ ":" ++ String.mk (natDecChars lineNo) ++ ": "
  | .lineWrap file lineNo inner =>
      file ++ ":" ++ String.mk (natDecChars lineNo) ++ ": " ++ inner.message
  | .ioMsg msg => msg

/-- The bytes of a string, modelled as Unicode scalar values (exact for the
ASCII text the store writes; only the byte count of headers matters to any
claim). -/
def strBytes (s : String) : List Nat :=
  s.data.map Char.toNat

/-- A local mail folder opened for appending (struct `LocalFolder` of the
local folder file, writer half): the archive file contents, the index file
contents, and the `bufio.Writer` buffer of index lines not yet flushed. -/
structure LocalFolderW where
  mbox : List Nat
  idx : List String
  idxBuf : List String
deriving Repr, DecidableEq

/-- `OpenLocalFolderAppend`: opens (creating when absent) both files in
append mode with a fresh index write buffer. -/
def OpenLocalFolderAppend (mboxFile : Option (List Nat))
    (idxFile : Option (List String)) : LocalFolderW :=
  { mbox := mboxFile.getD [], idx := idxFile.getD [], idxBuf := [] }

/-- Injected failures for one `Append` call: whether the header write, the
seek, the body write, the separator write on the archive, or the buffered
index-record write fails.  A failed archive operation is modelled as writing
nothing (no claim depends on partially written archive bytes); a failed
index-record write is modelled as the line not reaching the buffer. -/
structure AppendFails where
  headerW : Bool
  seek : Bool
  bodyW : Bool
  sepW : Bool
  idxW : Bool
deriving Repr, DecidableEq

def noFails : AppendFails := ⟨false, false, false, false, false⟩

/-- The `From <sender> <time>\n` envelope line `Append` writes before the
body.  The `time.Time` argument is modelled by its rendered ANSIC string. -/
def headerBytes (sender whenStr : String) : List Nat :=
  strBytes ("From " ++ sender ++ " " ++ whenStr ++ "\n")

/-- `LocalFolder.Append`: write the envelope header to the archive, record
the archive position (`Seek(0, io.SeekCurrent)` on the append-mode file is
its current length), write the body and a separating newline, then write the
index record `"%d\t%d\t%d\t%d\n"` to the buffered index writer — whose
result the source discards (the final `fmt.Fprintf` error is not checked and
`Append` returns `nil` regardless). -/
def LocalFolderW.Append (fl : AppendFails) (st : LocalFolderW)
    (uidValidity uid : Nat) (sender whenStr : String) (bs : List Nat) :
    Option GoError × LocalFolderW :=
  if fl.headerW then (some (.ioMsg "header write failed"), st)
  else
    let st1 : LocalFolderW := { st with mbox := st.mbox ++ headerBytes sender whenStr }
    if fl.seek then (some (.ioMsg "seek failed"), st1)
    else
      let pos := st1.mbox.length
      if fl.bodyW then (some (.ioMsg "body write failed"), st1)
      else
        let st2 : LocalFolderW := { st1 with mbox := st1.mbox ++ bs }
        if fl.sepW then (some (.ioMsg "separator write failed"), st2)
        else
          let st3 : LocalFolderW := { st2 with mbox := st2.mbox ++ [10] }
          let st4 : LocalFolderW :=
            if fl.idxW then st3
            else { st3 with idxBuf := st3.idxBuf ++ [fmtIdxLine uidValidity uid bs.length pos] }
          (none, st4)

/-- `LocalFolder.Close` for a writer handle: flush the buffered index lines
and close both files, yielding the final archive bytes and index lines. -/
def LocalFolderW.Close (st : LocalFolderW) : List Nat × List String :=
  (st.mbox, st.idx ++ st.idxBuf)

/-- A local mail folder opened read-only (struct `LocalFolder`, reader half):
folder name, index path (`lf.Idx.Name()`), archive bytes with the file read
position, the scanner's unconsumed index lines, `IdxLineNo`, and the `err`,
`mm` and `message` fields the scan methods maintain. -/
structure LocalFolder where
  Name : String
  idxPath : String
  mbox : List Nat
  mboxPos : Nat
  idxRemaining : List String
  IdxLineNo : Nat
  err : Option GoError
  mm : MessageMeta
  message : List Nat
deriving Repr, DecidableEq

/-- `OpenLocalFolderReadOnly(path, folderName)`: `os.Open` both files,
returning the `*fs.PathError` of the first absent one (with the
platform-dependent system message for a missing file).  On success the
scanner starts before the first index line with `IdxLineNo = 1` and the
zero-valued `mm`, `err`, `message` fields. -/
def OpenLocalFolderReadOnly (enoentMsg : String) (path folderName : String)
    (mboxFile : Option (List Nat)) (idxFile : Option (List String)) :
    Except GoError LocalFolder :=
  match mboxFile with
  | none => .error (.pathErr "open" (path ++ "/" ++ folderName ++ ".mbox") enoentMsg)
  | some mb =>
    match idxFile with
    | none => .error (.pathErr "open" (path ++ "/" ++ folderName ++ ".idx") enoentMsg)
    | some lines =>
        .ok { Name := folderName, idxPath := path ++ "/" ++ folderName ++ ".idx",
              mbox := mb, mboxPos := 0, idxRemaining := lines, IdxLineNo := 1,
              err := none, mm := ⟨0, 0, 0, 0, 0⟩, message := [] }

/-- `LocalFolder.IdxScan`: advance the line scanner and `lf.IdxLineNo++`
(the increment happens before the line is parsed); at end of input record
the scanner's error (`nil` for a clean end of file — the fully buffered file
model has no read errors); otherwise `Sscanf` the line into `lf.mm`, and on
a parse failure record `fmt.Errorf("%s:%d: %s", lf.Idx.Name(), lf.IdxLineNo,
err.Error())` and stop.  (`lf.mm` is left unchanged on a parse failure; the
source may partially overwrite it, but no code path reads it after a failed
scan.) -/
def LocalFolder.IdxScan (lf : LocalFolder) : Bool × LocalFolder :=
  match lf.idxRemaining with
  | [] => (false, { lf with IdxLineNo := lf.IdxLineNo + 1, err := none })
  | line :: rest =>
      match sscanf4 line with
      | some mm =>
          (true, { lf with idxRemaining := rest, IdxLineNo := lf.IdxLineNo + 1, mm := mm })
      | none =>
          (false,
           { lf with
             idxRemaining := rest
             IdxLineNo := lf.IdxLineNo + 1
             err := some (.scanParse lf.idxPath (lf.IdxLineNo + 1)) })

/-- `LocalFolder.IdxErr`. -/
def LocalFolder.IdxErr (lf : LocalFolder) : Option GoError :=
  lf.err

/-- `LocalFolder.IdxText`. -/
def LocalFolder.IdxText (lf : LocalFolder) : MessageMeta :=
  lf.mm

/-- One loop iteration's snapshot update in `ReadAllIndex`:
`f.Messages = append(f.Messages, msg)`, `f.UidValidity = msg.UidValidity`,
`f.Size += uint64(msg.Size)`. -/
def snapshotStep (f : ImapFolderMeta) (msg : MessageMeta) : ImapFolderMeta :=
  { f with
    Messages := f.Messages ++ [msg]
    UidValidity := msg.UidValidity
    Size := (f.Size + msg.Size) % 2 ^ 64 }

/-- The `for lf.IdxScan()` loop of `ReadAllIndex`.  The loop consumes one
index line per successful scan, so it is written with fuel that
`ReadAllIndex` instantiates with the number of unconsumed lines — on every
reachable call the fuel equals the lines left, making this exactly the
source's while loop.  On loop exit, `lf.IdxErr()` non-nil is wrapped as
`fmt.Errorf("%s:%d: %s", lf.Idx.Name(), lineNo, err.Error())` where `lineNo`
is the local variable of `ReadAllIndex` that is initialized to 1 and never
incremented. -/
def readAllLoop : Nat → LocalFolder → ImapFolderMeta → Except GoError ImapFolderMeta
  | 0, lf, f =>
      match (lf.IdxScan).2.err with
      | some e => .error (.lineWrap lf.idxPath 1 e)
      | none => .ok f
  | fuel + 1, lf, f =>
      match lf.IdxScan with
      | (true, lf') => readAllLoop fuel lf' (snapshotStep f lf'.mm)
      | (false, lf') =>
          match lf'.err with
          | some e => .error (.lineWrap lf.idxPath 1 e)
          | none => .ok f

/-- `LocalFolder.ReadAllIndex`: drain the index scanner into a snapshot
starting from `&ImapFolderMeta{Name: lf.Name}` (Go zero values for the other
fields). -/
def LocalFolder.ReadAllIndex (lf : LocalFolder) : Except GoError ImapFolderMeta :=
  readAllLoop lf.idxRemaining.length lf ⟨lf.Name, 0, [], 0⟩

/-- `LocalFolder.MboxScan`: scan the next index record, `Seek` the archive
to its offset (seeking a regular file to any position, even past its end,
succeeds), grow `lf.message` only if it is smaller than the record's size,
and issue one `Read` into the whole buffer.  The read transfers
`min(len(buffer), bytesLeft)` bytes into the buffer's prefix and fails only
when no byte is available for a non-empty buffer (`io.EOF`); the source
ignores the transferred count, so a short read leaves stale bytes in the
buffer's tail and still returns true. -/
def LocalFolder.MboxScan (lf : LocalFolder) : Bool × LocalFolder :=
  match lf.IdxScan with
  | (false, lf') => (false, lf')
  | (true, lf') =>
      let mm := lf'.mm
      let lf1 : LocalFolder := { lf' with mboxPos := mm.Offset }
      let buf := if lf1.message.length < mm.Size then List.replicate mm.Size 0 else lf1.message
      let avail := lf1.mbox.length - lf1.mboxPos
      if avail = 0 ∧ buf.length ≠ 0 then
        (false, { lf1 with err := some (.ioMsg "EOF"), message := buf })
      else
        let n := min buf.length avail
        (true,
         { lf1 with
           message := (lf1.mbox.drop lf1.mboxPos).take n ++ buf.drop n
           mboxPos := lf1.mboxPos + n
           err := none })

/-- `LocalFolder.MboxErr`. -/
def LocalFolder.MboxErr (lf : LocalFolder) : Option GoError :=
  lf.err

/-- `LocalFolder.MboxText`. -/
def LocalFolder.MboxText (lf : LocalFolder) : List Nat :=
  lf.message

/-! The per-folder local filtering step of `cmdQuery` (cmd.go): open the
local folder read-only; on an open error, fall through with the unfiltered
remote snapshot only when the error message carries a Windows-specific
"file/path not found" suffix, otherwise fail; on success read the local
index and filter the remote snapshot against it. -/

/-- `strings.HasSuffix`. -/
def strEndsWith (s suffix : String) : Bool :=
  suffix.data.isSuffixOf s.data

/-- The suffix test cmd.go applies to decide that an `OpenLocalFolderReadOnly`
error means "no local folder yet". -/
def isIgnoredOpenError (msg : String) : Bool :=
  strEndsWith msg "The system cannot find the file specified." ||
  strEndsWith msg "The system cannot find the path specified."

/-- The body of `cmdQuery`'s per-folder local-filtering block
(cmd.go lines 120-136). -/
def cmdQueryLocalFilter (enoentMsg : String) (path : String)
    (remote : ImapFolderMeta) (mboxFile : Option (List Nat))
    (idxFile : Option (List String)) : Except GoError ImapFolderMeta :=
  match OpenLocalFolderReadOnly enoentMsg path remote.Name mboxFile idxFile with
  | .error e =>
      if isIgnoredOpenError e.message then .ok remote
      else .error e
  | .ok lf =>
      match lf.ReadAllIndex with
      | .error e => .error e
      | .ok lfm =>
          .ok { remote with
                Messages := (remote.FilterOut lfm).1
                Size := (remote.FilterOut lfm).2 }

/-- C9 (amended): when the header write, the seek, the body write or the
separator write on the archive fails, `Append` returns that error and leaves
both the index file and the buffered index writer untouched (no index record
is written for the message). -/
theorem C9_archive_fail_no_index (fl : AppendFails) (st : LocalFolderW)
    (v u : Nat) (sender whenStr : String) (bs : List Nat)
    (h : fl.headerW = true ∨ fl.seek = true ∨ fl.bodyW = true ∨ fl.sepW = true) :
    (∃ e, (LocalFolderW.Append fl st v u sender whenStr bs).1 = some e) ∧
    ((LocalFolderW.Append fl st v u sender whenStr bs).2).idx = st.idx ∧
    ((LocalFolderW.Append fl st v u sender whenStr bs).2).idxBuf = st.idxBuf := by
  unfold LocalFolderW.Append
  cases hH : fl.headerW with
  | true => simp
  | false =>
      cases hS : fl.seek with
      | true => simp
      | false =>
          cases hB : fl.bodyW with
          | true => simp
          | false =>
              cases hSep : fl.sepW with
              | true => simp
              | false => simp [hH, hS, hB, hSep] at h

theorem C9_archive_fail_no_index_witness :
    (∃ e, (LocalFolderW.Append ⟨false, true, false, false, false⟩ ⟨[], [], []⟩
        1 2 "a" "t" [5]).1 = some e) ∧
    ((LocalFolderW.Append ⟨false, true, false, false, false⟩ ⟨[], [], []⟩
        1 2 "a" "t" [5]).2).idx = [] ∧
    ((LocalFolderW.Append ⟨false, true, false, false, false⟩ ⟨[], [], []⟩
        1 2 "a" "t" [5]).2).idxBuf = [] :=
  C9_archive_fail_no_index ⟨false, true, false, false, false⟩ ⟨[], [], []⟩
    1 2 "a" "t" [5] (Or.inr (Or.inl rfl))

/-- C9 counterexample: a failing write of the index record itself is not
reported — `Append` discards the buffered index writer's result and returns
no error, even though the record was lost. -/
theorem C9_index_fail_unreported :
    (LocalFolderW.Append ⟨false, false, false, false, true⟩ ⟨[], [], []⟩
        1 2 "a" "t" [5]).1 = none ∧
    ((LocalFolderW.Append ⟨false, false, false, false, true⟩ ⟨[], [], []⟩
        1 2 "a" "t" [5]).2).idxBuf = [] ∧
    ((LocalFolderW.Append ⟨false, false, false, false, true⟩ ⟨[], [], []⟩
        1 2 "a" "t" [5]).2).idx = [] :=
  ⟨rfl, rfl, rfl⟩

/-- C10: a read-only folder whose index file exists with zero lines loads
into a snapshot with the folder's name, validity stamp 0, no messages and
size 0, with no error. -/
theorem C10_empty_index (enoentMsg path name : String) (mb : List Nat) :
    ∃ lf, OpenLocalFolderReadOnly enoentMsg path name (some mb) (some []) = .ok lf ∧
      lf.ReadAllIndex = .ok ⟨name, 0, [], 0⟩ :=
  ⟨_, rfl, rfl⟩

/-- C4: evaluation at an index file whose second line is missing a field.
`ReadAllIndex` fails and returns no partial snapshot, but the parse error
reports line number 3 (the bad line's 1-based number plus one, because
`IdxLineNo` starts at 1 and is incremented before the line is parsed), and
the outer wrapper reports the never-incremented `lineNo = 1`; the 1-based
number of the bad line, 2, appears nowhere. -/
theorem C4_line_number_off_by_one :
    ∃ lf, OpenLocalFolderReadOnly "no such file or directory" "p" "F"
        (some []) (some ["1\t2\t3\t4", "5\t6\t7"]) = .ok lf ∧
      lf.ReadAllIndex =
        .error (.lineWrap "p/F.idx" 1 (.scanParse "p/F.idx" 3)) :=
  ⟨_, rfl, rfl⟩

/-- C3: evaluation of the mbox scan.  First part: after reading a 2-byte
message, scanning a 1-byte record at offset 2 returns true but `MboxText`
yields the whole reused 2-byte buffer `[99, 98]` — byte 99 from the archive
plus a stale byte — instead of exactly the 1 recorded byte `[99]`.  Second
part: a record whose size 5 exceeds the 3 remaining archive bytes is a short
read, yet the scan returns true with no error and a zero-padded buffer. -/
theorem C3_mboxText_wrong_size :
    (∃ lf, OpenLocalFolderReadOnly "no such file or directory" "p" "F"
        (some [97, 98, 99]) (some ["0\t1\t2\t0", "0\t2\t1\t2"]) = .ok lf ∧
      (lf.MboxScan.2.MboxScan).1 = true ∧
      (lf.MboxScan.2.MboxScan).2.mm.Size = 1 ∧
      (lf.MboxScan.2.MboxScan).2.MboxText = [99, 98] ∧
      (lf.MboxScan.2.MboxScan).2.MboxText ≠
        (([97, 98, 99] : List Nat).drop 2).take 1) ∧
    (∃ lf2, OpenLocalFolderReadOnly "no such file or directory" "p" "F"
        (some [97, 98, 99]) (some ["0\t1\t5\t0"]) = .ok lf2 ∧
      lf2.MboxScan.1 = true ∧
      lf2.MboxScan.2.err = none ∧
      lf2.MboxScan.2.MboxText = [97, 98, 99, 0, 0]) :=
  ⟨⟨_, rfl, by decide, by decide, by decide, by decide⟩,
   ⟨_, rfl, by decide, by decide, by decide⟩⟩

/-- C5: evaluation of `cmdQuery`'s handling of an absent local folder.  The
fallthrough that treats the folder as never backed up only recognizes the
Windows system messages; with the POSIX message for a missing file the whole
query fails with the open error instead. -/
theorem C5_notfound_windows_only :
    cmdQueryLocalFilter "no such file or directory" "server/user"
        ⟨"INBOX", 7, [⟨1, 7, 1, 100, 0⟩], 100⟩ none none =
      .error (.pathErr "open" "server/user/INBOX.mbox" "no such file or directory") ∧
    cmdQueryLocalFilter "The system cannot find the file specified." "server/user"
        ⟨"INBOX", 7, [⟨1, 7, 1, 100, 0⟩], 100⟩ none none =
      .ok ⟨"INBOX", 7, [⟨1, 7, 1, 100, 0⟩], 100⟩ := by
  constructor
  · rfl
  · rfl

/-! The C2 round trip: a sequence of appends to a fresh store, closed,
reopened read-only and drained through `ReadAllIndex`. -/

/-- One append request: the arguments of one `Append` call. -/
structure AppendReq where
  validity : Nat
  uid : Nat
  sender : String
  whenStr : String
  body : List Nat
deriving Repr, DecidableEq

/-- Perform a sequence of failure-free `Append` calls. -/
def appendAll (reqs : List AppendReq) (st : LocalFolderW) : LocalFolderW :=
  reqs.foldl
    (fun st r =>
      (LocalFolderW.Append noFails st r.validity r.uid r.sender r.whenStr r.body).2)
    st

/-- The archive bytes a sequence of appends produces: per message, envelope
header, body, separating newline. -/
def mboxBlocks : List AppendReq → List Nat
  | [] => []
  | r :: rest => headerBytes r.sender r.whenStr ++ r.body ++ [10] ++ mboxBlocks rest

/-- The index records a sequence of appends starting at archive position
`pos` produces (as read back: `SeqNum = 0`). -/
def expectedRecords : Nat → List AppendReq → List MessageMeta
  | _, [] => []
  | pos, r :: rest =>
      ⟨0, r.validity, r.uid, r.body.length,
        pos + (headerBytes r.sender r.whenStr).length⟩ ::
      expectedRecords
        (pos + (headerBytes r.sender r.whenStr).length + r.body.length + 1) rest

/-- The index line recording `mm`. -/
def recLine (mm : MessageMeta) : String :=
  fmtIdxLine mm.UidValidity mm.Uid mm.Size mm.Offset

theorem append_noFails (st : LocalFolderW) (v u : Nat) (sender whenStr : String)
    (bs : List Nat) :
    LocalFolderW.Append noFails st v u sender whenStr bs =
      (none,
       ⟨st.mbox ++ headerBytes sender whenStr ++ bs ++ [10], st.idx,
        st.idxBuf ++
          [fmtIdxLine v u bs.length ((st.mbox ++ headerBytes sender whenStr).length)]⟩) := by
  simp [LocalFolderW.Append, noFails]

theorem appendAll_spec (reqs : List AppendReq) :
    ∀ st : LocalFolderW,
      appendAll reqs st =
        ⟨st.mbox ++ mboxBlocks reqs, st.idx,
         st.idxBuf ++ (expectedRecords st.mbox.length reqs).map recLine⟩ := by
  induction reqs with
  | nil => intro st; simp [appendAll, mboxBlocks, expectedRecords]
  | cons r rest ih =>
      intro st
      show appendAll rest
        ((LocalFolderW.Append noFails st r.validity r.uid r.sender r.whenStr r.body).2) = _
      rw [append_noFails, ih]
      simp [mboxBlocks, expectedRecords, recLine, List.append_assoc]
      have harg : st.mbox.length + ((headerBytes r.sender r.whenStr).length +
          (r.body.length + 1)) =
          st.mbox.length + (headerBytes r.sender r.whenStr).length + r.body.length + 1 := by
        omega
      rw [harg]

theorem expectedRecords_length (reqs : List AppendReq) :
    ∀ pos, (expectedRecords pos reqs).length = reqs.length := by
  induction reqs with
  | nil => intro pos; rfl
  | cons r rest ih => intro pos; simp [expectedRecords, ih]

theorem expectedRecords_map_proj (reqs : List AppendReq) :
    ∀ pos, (expectedRecords pos reqs).map (fun m => (m.UidValidity, m.Uid, m.Size)) =
      reqs.map (fun r => (r.validity, r.uid, r.body.length)) := by
  induction reqs with
  | nil => intro pos; rfl
  | cons r rest ih => intro pos; simp [expectedRecords, ih]

theorem expectedRecords_seqNum (reqs : List AppendReq) :
    ∀ pos, ∀ mm ∈ expectedRecords pos reqs, mm.SeqNum = 0 := by
  induction reqs with
  | nil => intro pos mm hmm; simp [expectedRecords] at hmm
  | cons r rest ih =>
      intro pos mm hmm
      simp only [expectedRecords, List.mem_cons] at hmm
      rcases hmm with rfl | hmm
      · rfl
      · exact ih _ mm hmm

theorem expectedRecords_bounds (reqs : List AppendReq)
    (hv : ∀ r ∈ reqs, r.validity < 2 ^ 32 ∧ r.uid < 2 ^ 32 ∧ r.body.length < 2 ^ 32) :
    ∀ pos, ∀ mm ∈ expectedRecords pos reqs,
      mm.UidValidity < 2 ^ 32 ∧ mm.Uid < 2 ^ 32 ∧ mm.Size < 2 ^ 32 := by
  induction reqs with
  | nil => intro pos mm hmm; simp [expectedRecords] at hmm
  | cons r rest ih =>
      intro pos mm hmm
      simp only [expectedRecords, List.mem_cons] at hmm
      rcases hmm with rfl | hmm
      · exact hv r (List.mem_cons_self r rest)
      · exact ih (fun x hx => hv x (List.mem_cons_of_mem r hx)) _ mm hmm

theorem mboxBlocks_length_cons (r : AppendReq) (rest : List AppendReq) :
    (mboxBlocks (r :: rest)).length =
      (headerBytes r.sender r.whenStr).length + r.body.length + 1 +
        (mboxBlocks rest).length := by
  simp [mboxBlocks]
  omega

theorem expectedRecords_offset_le (reqs : List AppendReq) :
    ∀ pos, ∀ mm ∈ expectedRecords pos reqs,
      mm.Offset + mm.Size ≤ pos + (mboxBlocks reqs).length := by
  induction reqs with
  | nil => intro pos mm hmm; simp [expectedRecords] at hmm
  | cons r rest ih =>
      intro pos mm hmm
      rw [mboxBlocks_length_cons]
      simp only [expectedRecords, List.mem_cons] at hmm
      rcases hmm with rfl | hmm
      · dsimp only
        omega
      · have := ih (pos + (headerBytes r.sender r.whenStr).length + r.body.length + 1)
          mm hmm
        omega

/-- Fold of the per-line snapshot updates of `ReadAllIndex`. -/
def applyAll (f : ImapFolderMeta) (mms : List MessageMeta) : ImapFolderMeta :=
  mms.foldl snapshotStep f

theorem applyAll_messages (mms : List MessageMeta) :
    ∀ f : ImapFolderMeta, (applyAll f mms).Messages = f.Messages ++ mms := by
  induction mms with
  | nil => intro f; simp [applyAll]
  | cons mm rest ih =>
      intro f
      show (applyAll (snapshotStep f mm) rest).Messages = _
      rw [ih]
      simp [snapshotStep]

theorem readAllLoop_ok (lines : List String) :
    ∀ (lf : LocalFolder) (f : ImapFolderMeta), lf.idxRemaining = lines →
      (∀ line ∈ lines, (sscanf4 line).isSome) →
      readAllLoop lines.length lf f = .ok (applyAll f (lines.filterMap sscanf4)) := by
  induction lines with
  | nil =>
      intro lf f hrem _
      simp [readAllLoop, LocalFolder.IdxScan, hrem, applyAll]
  | cons line rest ih =>
      intro lf f hrem hall
      obtain ⟨mm, hmm⟩ := Option.isSome_iff_exists.mp
        (hall line (List.mem_cons_self line rest))
      have hscan : lf.IdxScan =
          (true, { lf with idxRemaining := rest, IdxLineNo := lf.IdxLineNo + 1, mm := mm }) := by
        simp [LocalFolder.IdxScan, hrem, hmm]
      show readAllLoop (rest.length + 1) lf f = _
      rw [show readAllLoop (rest.length + 1) lf f =
          (match lf.IdxScan with
           | (true, lf') => readAllLoop rest.length lf' (snapshotStep f lf'.mm)
           | (false, lf') =>
               match lf'.err with
               | some e => .error (.lineWrap lf.idxPath 1 e)
               | none => .ok f) from rfl]
      rw [hscan]
      simp only []
      rw [ih _ (snapshotStep f mm) rfl
        (fun l hl => hall l (List.mem_cons_of_mem line hl))]
      rw [List.filterMap_cons, hmm]
      rfl

theorem filterMap_recLine (l : List MessageMeta)
    (h : ∀ mm ∈ l, sscanf4 (recLine mm) = some mm) :
    (l.map recLine).filterMap sscanf4 = l := by
  induction l with
  | nil => rfl
  | cons mm rest ih =>
      simp only [List.map_cons, List.filterMap_cons, h mm (List.mem_cons_self mm rest)]
      rw [ih (fun x hx => h x (List.mem_cons_of_mem mm hx))]

theorem mboxBlocks_extract (reqs : List AppendReq) :
    ∀ (pos : Nat) (pre : List Nat), pre.length = pos →
      ∀ (i : Nat) (hi : i < (expectedRecords pos reqs).length) (hr : i < reqs.length),
        ((pre ++ mboxBlocks reqs).drop
            ((expectedRecords pos reqs).get ⟨i, hi⟩).Offset).take
            ((expectedRecords pos reqs).get ⟨i, hi⟩).Size =
          (reqs.get ⟨i, hr⟩).body := by
  induction reqs with
  | nil =>
      intro pos pre hpre i hi hr
      rw [expectedRecords_length] at hi
      exact absurd hi (Nat.not_lt_zero i)
  | cons r rest ih =>
      intro pos pre hpre i hi hr
      cases i with
      | zero =>
          show ((pre ++ mboxBlocks (r :: rest)).drop
              (pos + (headerBytes r.sender r.whenStr).length)).take r.body.length =
            r.body
          rw [show mboxBlocks (r :: rest) =
            headerBytes r.sender r.whenStr ++
              (r.body ++ ([10] ++ mboxBlocks rest)) from by
              simp [mboxBlocks, List.append_assoc]]
          rw [← List.append_assoc pre]
          rw [show pos + (headerBytes r.sender r.whenStr).length =
            (pre ++ headerBytes r.sender r.whenStr).length from by simp [hpre]]
          rw [List.drop_left, List.take_left]
      | succ j =>
          have hi' : j < (expectedRecords
              (pos + (headerBytes r.sender r.whenStr).length + r.body.length + 1)
              rest).length := by
            rw [expectedRecords_length] at hi ⊢
            simp only [List.length_cons] at hi
            omega
          have hr' : j < rest.length := by
            simp only [List.length_cons] at hr
            omega
          show ((pre ++ mboxBlocks (r :: rest)).drop
              ((expectedRecords
                (pos + (headerBytes r.sender r.whenStr).length + r.body.length + 1)
                rest).get ⟨j, hi'⟩).Offset).take
              ((expectedRecords
                (pos + (headerBytes r.sender r.whenStr).length + r.body.length + 1)
                rest).get ⟨j, hi'⟩).Size =
            (rest.get ⟨j, hr'⟩).body
          have hpre' : (pre ++ (headerBytes r.sender r.whenStr ++ r.body ++ [10])).length =
              pos + (headerBytes r.sender r.whenStr).length + r.body.length + 1 := by
            simp [hpre]
            omega
          have hsplit : pre ++ mboxBlocks (r :: rest) =
              (pre ++ (headerBytes r.sender r.whenStr ++ r.body ++ [10])) ++
                mboxBlocks rest := by
            simp [mboxBlocks, List.append_assoc]
          rw [hsplit]
          exact ih _ _ hpre' j hi' hr'

/-- C2: appending a sequence of messages to a fresh local folder store,
closing it, reopening read-only and calling `ReadAllIndex` yields exactly one
record per append, in append order, whose (validity, uid, size) equal the
appended values with size the body's length, and the archive bytes at each
record's (offset, size) are exactly the appended body.  Side conditions:
validity and uid are `uint32` values, bodies are shorter than `2 ^ 32` bytes
and the archive stays below `2 ^ 64` bytes, as in the Go types. -/
theorem C2_roundTrip (enoentMsg path folder : String) (reqs : List AppendReq)
    (hv : ∀ r ∈ reqs, r.validity < 2 ^ 32 ∧ r.uid < 2 ^ 32 ∧ r.body.length < 2 ^ 32)
    (hlen : (mboxBlocks reqs).length < 2 ^ 64) :
    ∃ lf f,
      OpenLocalFolderReadOnly enoentMsg path folder
        (some ((appendAll reqs (OpenLocalFolderAppend none none)).Close.1))
        (some ((appendAll reqs (OpenLocalFolderAppend none none)).Close.2)) = .ok lf ∧
      lf.ReadAllIndex = .ok f ∧
      f.Messages.map (fun m => (m.UidValidity, m.Uid, m.Size)) =
        reqs.map (fun r => (r.validity, r.uid, r.body.length)) ∧
      f.Messages.length = reqs.length ∧
      (∀ i, ∀ hm : i < f.Messages.length, ∀ hr : i < reqs.length,
        (((appendAll reqs (OpenLocalFolderAppend none none)).Close.1).drop
            (f.Messages.get ⟨i, hm⟩).Offset).take (f.Messages.get ⟨i, hm⟩).Size =
          (reqs.get ⟨i, hr⟩).body) := by
  have happ := appendAll_spec reqs (OpenLocalFolderAppend none none)
  have hclose : (appendAll reqs (OpenLocalFolderAppend none none)).Close =
      (mboxBlocks reqs, (expectedRecords 0 reqs).map recLine) := by
    rw [happ]
    simp [LocalFolderW.Close, OpenLocalFolderAppend]
  have hparse : ∀ mm ∈ expectedRecords 0 reqs, sscanf4 (recLine mm) = some mm := by
    intro mm hmm
    obtain ⟨hb1, hb2, hb3⟩ := expectedRecords_bounds reqs hv 0 mm hmm
    have hoff := expectedRecords_offset_le reqs 0 mm hmm
    have hseq := expectedRecords_seqNum reqs 0 mm hmm
    have ho : mm.Offset < 2 ^ 64 := by omega
    have hrt := sscanf4_fmtIdxLine mm.UidValidity mm.Uid mm.Size mm.Offset hb1 hb2 hb3 ho
    rw [recLine, hrt]
    obtain ⟨a, b, c, d, e⟩ := mm
    simp only at hseq
    subst hseq
    rfl
  have hlines : ∀ line ∈ (expectedRecords 0 reqs).map recLine, (sscanf4 line).isSome := by
    intro line hline
    obtain ⟨mm, hmm, rfl⟩ := List.mem_map.mp hline
    rw [hparse mm hmm]
    rfl
  rw [hclose]
  dsimp only
  refine ⟨⟨folder, path ++ "/" ++ folder ++ ".idx", mboxBlocks reqs, 0,
      (expectedRecords 0 reqs).map recLine, 1, none, ⟨0, 0, 0, 0, 0⟩, []⟩,
    applyAll ⟨folder, 0, [], 0⟩ (((expectedRecords 0 reqs).map recLine).filterMap sscanf4),
    rfl, ?_, ?_, ?_, ?_⟩
  · show LocalFolder.ReadAllIndex _ = _
    rw [LocalFolder.ReadAllIndex]
    exact readAllLoop_ok ((expectedRecords 0 reqs).map recLine) _ _ rfl hlines
  · rw [applyAll_messages, filterMap_recLine _ hparse, List.nil_append]
    exact expectedRecords_map_proj reqs 0
  · rw [applyAll_messages, filterMap_recLine _ hparse, List.nil_append,
      expectedRecords_length]
  · intro i hm hr
    have hMsgs : (applyAll ⟨folder, 0, [], 0⟩
        (((expectedRecords 0 reqs).map recLine).filterMap sscanf4)).Messages =
        expectedRecords 0 reqs := by
      rw [applyAll_messages, filterMap_recLine _ hparse, List.nil_append]
    have hm' : i < (expectedRecords 0 reqs).length := by
      rw [hMsgs] at hm
      exact hm
    have hget := List.get_of_eq hMsgs ⟨i, hm⟩
    rw [hget]
    have hext := mboxBlocks_extract reqs 0 [] rfl i hm' hr
    rw [List.nil_append] at hext
    exact hext

theorem C2_roundTrip_witness :
    (∀ r ∈ [(⟨7, 1, "alice", "Mon Jan  2 15:04:05 2006", [104, 105]⟩ : AppendReq),
            ⟨7, 2, "bob", "Mon Jan  2 15:04:05 2006", [106]⟩],
      r.validity < 2 ^ 32 ∧ r.uid < 2 ^ 32 ∧ r.body.length < 2 ^ 32) ∧
    (mboxBlocks [(⟨7, 1, "alice", "Mon Jan  2 15:04:05 2006", [104, 105]⟩ : AppendReq),
            ⟨7, 2, "bob", "Mon Jan  2 15:04:05 2006", [106]⟩]).length < 2 ^ 64 ∧
    (∃ lf f,
      OpenLocalFolderReadOnly "no such file or directory" "server/user" "INBOX"
        (some ((appendAll [(⟨7, 1, "alice", "Mon Jan  2 15:04:05 2006", [104, 105]⟩ : AppendReq),
            ⟨7, 2, "bob", "Mon Jan  2 15:04:05 2006", [106]⟩]
          (OpenLocalFolderAppend none none)).Close.1))
        (some ((appendAll [(⟨7, 1, "alice", "Mon Jan  2 15:04:05 2006", [104, 105]⟩ : AppendReq),
            ⟨7, 2, "bob", "Mon Jan  2 15:04:05 2006", [106]⟩]
          (OpenLocalFolderAppend none none)).Close.2)) = .ok lf ∧
      lf.ReadAllIndex = .ok f ∧
      f.Messages.map (fun m => (m.UidValidity, m.Uid, m.Size)) =
        [(7, 1, 2), (7, 2, 1)] ∧
      f.Messages.length = 2 ∧
      (∀ i, ∀ hm : i < f.Messages.length,
        ∀ hr : i < ([(⟨7, 1, "alice", "Mon Jan  2 15:04:05 2006", [104, 105]⟩ : AppendReq),
            ⟨7, 2, "bob", "Mon Jan  2 15:04:05 2006", [106]⟩] : List AppendReq).length,
        (((appendAll [(⟨7, 1, "alice", "Mon Jan  2 15:04:05 2006", [104, 105]⟩ : AppendReq),
            ⟨7, 2, "bob", "Mon Jan  2 15:04:05 2006", [106]⟩]
          (OpenLocalFolderAppend none none)).Close.1).drop
            (f.Messages.get ⟨i, hm⟩).Offset).take (f.Messages.get ⟨i, hm⟩).Size =
          (([(⟨7, 1, "alice", "Mon Jan  2 15:04:05 2006", [104, 105]⟩ : AppendReq),
            ⟨7, 2, "bob", "Mon Jan  2 15:04:05 2006", [106]⟩] : List AppendReq).get
              ⟨i, hr⟩).body)) :=
  ⟨by decide, by decide,
   C2_roundTrip "no such file or directory" "server/user" "INBOX"
     [⟨7, 1, "alice", "Mon Jan  2 15:04:05 2006", [104, 105]⟩,
      ⟨7, 2, "bob", "Mon Jan  2 15:04:05 2006", [106]⟩]
     (by decide) (by decide)⟩

end GoImapBackup
